import Mathlib

/-!
Verification of the streak-calculation and completion-toggle logic of the
habit-tracking backend (`routes/progress.js`).

Timestamps are modelled as integers counting milliseconds from the epoch,
with the server's local timezone taken to be UTC, so that JavaScript's
`date.setHours(0, 0, 0, 0)` is truncation to the enclosing multiple of
86400000, and `Math.floor((a - b) / 86400000)` is integer floor division
of the millisecond difference by the length of a day.
-/

namespace HabitBackend

/-- Milliseconds per day, the source's `1000 * 60 * 60 * 24`. -/
def MS_PER_DAY : Int := 86400000

/-- JavaScript `setHours(0, 0, 0, 0)`: truncate a timestamp to the start of
its day. -/
def setHours0 (t : Int) : Int := MS_PER_DAY * (Int.fdiv t MS_PER_DAY)

/-- The source's `Math.floor((a - b) / (1000 * 60 * 60 * 24))` on
millisecond timestamps. -/
def daysDiff (a b : Int) : Int := Int.fdiv (a - b) MS_PER_DAY

/-- The day number of a timestamp (which day of the epoch it falls in). -/
def dayFloor (t : Int) : Int := Int.fdiv t MS_PER_DAY

/-- The timestamp of midnight of day `d`. -/
def dayMs (d : Int) : Int := MS_PER_DAY * d

/-- The `i > 0` iterations of the current-streak loop of `calculateStreaks`:
`prev` is `progress[i - 1]`; each step normalizes both dates with
`setHours(0,0,0,0)`, extends the streak while the normalized difference is
exactly one day, and `break`s at the first other difference. -/
def currentChain (prev : Int) : List Int → Nat
  | [] => 0
  | d :: rest =>
      if daysDiff (setHours0 prev) (setHours0 d) = 1 then
        1 + currentChain d rest
      else 0

/-- The full current-streak loop of `calculateStreaks` on the
descending-ordered progress dates: iteration `i = 0` sets the streak to 1
exactly when the normalized difference between `today` and the most recent
date is 0 or 1 (and does not stop the loop otherwise); the remaining
iterations are `currentChain`. `today0` is the already-normalized today. -/
def currentStreakCalc (today0 : Int) : List Int → Nat
  | [] => 0
  | d :: rest =>
      (if daysDiff today0 (setHours0 d) = 0 ∨ daysDiff today0 (setHours0 d) = 1
        then 1 else 0) + currentChain d rest

/-- The longest-streak loop of `calculateStreaks`: `tempStreak` and
`longestStreak` accumulators, comparing `progress[i-1]` and `progress[i]`
as raw timestamps (this loop applies no `setHours` normalization). -/
def longestLoop (prev : Int) (temp longest : Nat) : List Int → Nat
  | [] => longest
  | d :: rest =>
      if daysDiff prev d = 1 then
        longestLoop d (temp + 1) (Nat.max longest (temp + 1)) rest
      else
        longestLoop d 1 longest rest

/-- The longest-streak computation: `tempStreak = 1; longestStreak = 1`
followed by the loop from index 1. -/
def longestStreakCalc : List Int → Nat
  | [] => 0
  | d :: rest => longestLoop d 1 1 rest

/-- The body of `calculateStreaks` on the list of completed dates as returned by the
store query (ordered by date descending): empty input returns `(0, 0)`;
otherwise the current-streak loop (with `today` normalized to midnight)
and the longest-streak loop run over the list. -/
def calculateStreaks (progress : List Int) (today : Int) : Nat × Nat :=
  match progress with
  | [] => (0, 0)
  | _ :: _ => (currentStreakCalc (setHours0 today) progress, longestStreakCalc progress)

/-- The store query's `order('date', ascending: false)`: sort descending. -/
def sortDesc (l : List Int) : List Int := l.insertionSort (fun a b => b ≤ a)

/-- The whole pipeline on an unordered collection of completion dates:
the query delivers them sorted descending, then `calculateStreaks` runs. -/
def calculateStreaksFromSet (dates : List Int) (today : Int) : Nat × Nat :=
  calculateStreaks (sortDesc dates) today

/-- The error path of `calculateStreaks`: a failed query (`error` set or
`data` missing) is modelled as `none` and returns `(0, 0)` before any
streak code runs, exactly like an empty result list. -/
def calculateStreaksQuery (res : Option (List Int)) (today : Int) : Nat × Nat :=
  match res with
  | none => (0, 0)
  | some progress => calculateStreaks progress today

/-- A row of the `progress` table: one completion record, with the `date`
column held at day granularity (the route always stores the date-only
string of the normalized date). -/
structure ProgressRecord where
  id : Nat
  userId : Nat
  habitId : Nat
  date : Int
  completed : Bool
  notes : String
  deriving DecidableEq

/-- The `eq('user_id', u).eq('habit_id', h).eq('date', d)` filter of the
toggle route's lookup. -/
def matchKey (u h : Nat) (d : Int) (r : ProgressRecord) : Bool :=
  r.userId == u && r.habitId == h && r.date == d

/-- Supabase `.single()` on the filtered query: the row when the filter matches
exactly one row, an error (`none`) otherwise. -/
def selectSingle (store : List ProgressRecord) (u h : Nat) (d : Int) :
    Option ProgressRecord :=
  match store.filter (matchKey u h d) with
  | [r] => some r
  | _ => none

/-- The store mutation of `POST /api/progress/toggle`: normalize the request
date to its day, look up the existing record for (user, habit, day); if one
exists, update that row (by its `id`) negating `completed` and replacing
`notes` when given; otherwise insert a new row with `completed = true`. -/
def toggleProgress (store : List ProgressRecord) (u h : Nat) (date : Int)
    (notes : Option String) (freshId : Nat) : List ProgressRecord :=
  match selectSingle store u h (dayFloor date) with
  | some r =>
      store.map fun x =>
        if x.id = r.id then
          { x with completed := !x.completed, notes := notes.getD x.notes }
        else x
  | none =>
      store ++ [{ id := freshId, userId := u, habitId := h, date := dayFloor date,
                  completed := true, notes := notes.getD "" }]

/-- Number of records a habit has for a given calendar day. -/
def countKey (store : List ProgressRecord) (h : Nat) (d : Int) : Nat :=
  (store.filter fun r => r.habitId == h && r.date == d).length

instance : IsTotal Int (fun a b => b ≤ a) := ⟨fun a b => le_total b a⟩

instance : IsTrans Int (fun a b => b ≤ a) := ⟨fun _ _ _ h1 h2 => le_trans h2 h1⟩

instance : IsAntisymm Int (fun a b => b ≤ a) := ⟨fun _ _ h1 h2 => le_antisymm h2 h1⟩

/-! Day-level reformulation used in proofs

All comparisons the current-streak loop makes are differences of day
numbers, and on inputs at day granularity the longest-streak loop's raw
differences are also day differences. -/

/-- Day-number version of `currentChain`. -/
def dayChain (prev : Int) : List Int → Nat
  | [] => 0
  | d :: rest => if prev - d = 1 then 1 + dayChain d rest else 0

/-- Day-number version of `currentStreakCalc`. -/
def dayCurrent (today : Int) : List Int → Nat
  | [] => 0
  | d :: rest =>
      (if today - d = 0 ∨ today - d = 1 then 1 else 0) + dayChain d rest

/-- Day-number version of `longestLoop`. -/
def dayLongestLoop (prev : Int) (temp longest : Nat) : List Int → Nat
  | [] => longest
  | d :: rest =>
      if prev - d = 1 then
        dayLongestLoop d (temp + 1) (Nat.max longest (temp + 1)) rest
      else
        dayLongestLoop d 1 longest rest

/-- Day-number version of `longestStreakCalc`. -/
def dayLongest : List Int → Nat
  | [] => 0
  | d :: rest => dayLongestLoop d 1 1 rest

lemma MS_pos : (0 : Int) < MS_PER_DAY := by decide

lemma fdiv_dayMs (k : Int) : Int.fdiv (dayMs k) MS_PER_DAY = k :=
  Int.mul_fdiv_cancel_left k (by decide)

lemma dayFloor_dayMs (k : Int) : dayFloor (dayMs k) = k := fdiv_dayMs k

lemma setHours0_eq (t : Int) : setHours0 t = dayMs (dayFloor t) := rfl

lemma setHours0_dayMs (k : Int) : setHours0 (dayMs k) = dayMs k := by
  unfold setHours0
  rw [fdiv_dayMs]
  rfl

lemma dayFloor_setHours0 (t : Int) : dayFloor (setHours0 t) = dayFloor t := by
  rw [setHours0_eq, dayFloor_dayMs]

lemma daysDiff_dayMs (a b : Int) : daysDiff (dayMs a) (dayMs b) = a - b := by
  unfold daysDiff dayMs
  rw [← Int.mul_sub]
  exact Int.mul_fdiv_cancel_left _ (by decide)

lemma daysDiff_setHours0 (a b : Int) :
    daysDiff (setHours0 a) (setHours0 b) = dayFloor a - dayFloor b := by
  rw [setHours0_eq, setHours0_eq, daysDiff_dayMs]

lemma dayFloor_mono {a b : Int} (h : a ≤ b) : dayFloor a ≤ dayFloor b := by
  unfold dayFloor
  rw [Int.fdiv_eq_ediv _ (by decide), Int.fdiv_eq_ediv _ (by decide)]
  exact Int.ediv_le_ediv MS_pos h

/-- The current-streak chain only looks at day numbers. -/
lemma currentChain_eq_dayChain (prev : Int) (l : List Int) :
    currentChain prev l = dayChain (dayFloor prev) (l.map dayFloor) := by
  induction l generalizing prev with
  | nil => rfl
  | cons d rest ih =>
      simp only [currentChain, dayChain, List.map_cons, daysDiff_setHours0, ih]

/-- The current-streak computation only looks at day numbers. -/
lemma currentStreakCalc_eq_dayCurrent (t : Int) (l : List Int) :
    currentStreakCalc (setHours0 t) l = dayCurrent (dayFloor t) (l.map dayFloor) := by
  cases l with
  | nil => rfl
  | cons d rest =>
      simp only [currentStreakCalc, dayCurrent, List.map_cons,
        daysDiff_setHours0, dayFloor_setHours0, currentChain_eq_dayChain]

/-- On inputs at day granularity the longest-streak loop coincides with its
day-number version. -/
lemma longestLoop_eq_dayLongestLoop (p : Int) (temp longest : Nat) (l : List Int)
    (hl : ∀ x ∈ l, x = dayMs (dayFloor x)) :
    longestLoop (dayMs p) temp longest l =
      dayLongestLoop p temp longest (l.map dayFloor) := by
  induction l generalizing p temp longest with
  | nil => rfl
  | cons d rest ih =>
      have hd : d = dayMs (dayFloor d) := hl d (List.mem_cons_self d rest)
      have hrest : ∀ x ∈ rest, x = dayMs (dayFloor x) :=
        fun x hx => hl x (List.mem_cons_of_mem d hx)
      simp only [longestLoop, dayLongestLoop, List.map_cons]
      rw [show daysDiff (dayMs p) d = p - dayFloor d by
            rw [hd, daysDiff_dayMs, dayFloor_dayMs]]
      by_cases h : p - dayFloor d = 1
      · rw [if_pos h, if_pos h, hd, ih _ _ _ hrest, dayFloor_dayMs]
      · rw [if_neg h, if_neg h, hd, ih _ _ _ hrest, dayFloor_dayMs]

lemma longestStreakCalc_eq_dayLongest (l : List Int)
    (hl : ∀ x ∈ l, x = dayMs (dayFloor x)) :
    longestStreakCalc l = dayLongest (l.map dayFloor) := by
  cases l with
  | nil => rfl
  | cons d rest =>
      have hd : d = dayMs (dayFloor d) := hl d (List.mem_cons_self d rest)
      have hrest : ∀ x ∈ rest, x = dayMs (dayFloor x) :=
        fun x hx => hl x (List.mem_cons_of_mem d hx)
      simp only [longestStreakCalc, dayLongest, List.map_cons]
      rw [hd, longestLoop_eq_dayLongestLoop _ _ _ _ hrest, dayFloor_dayMs]

/-! Inequalities for the longest-streak loop -/

lemma dayLongestLoop_ge (l : List Int) :
    ∀ p temp longest, longest ≤ dayLongestLoop p temp longest l := by
  induction l with
  | nil => intro p temp longest; exact le_refl _
  | cons d rest ih =>
      intro p temp longest
      simp only [dayLongestLoop]
      by_cases hd : p - d = 1
      · rw [if_pos hd]
        exact le_trans (Nat.le_max_left _ _) (ih _ _ _)
      · rw [if_neg hd]
        exact ih _ _ _

lemma dayLongestLoop_ge_chain (l : List Int) :
    ∀ p temp longest, temp ≤ longest →
      temp + dayChain p l ≤ dayLongestLoop p temp longest l := by
  induction l with
  | nil =>
      intro p temp longest h
      simpa [dayChain, dayLongestLoop] using h
  | cons d rest ih =>
      intro p temp longest h
      simp only [dayChain, dayLongestLoop]
      by_cases hd : p - d = 1
      · rw [if_pos hd, if_pos hd]
        have := ih d (temp + 1) (Nat.max longest (temp + 1)) (Nat.le_max_right _ _)
        omega
      · rw [if_neg hd, if_neg hd]
        have := dayLongestLoop_ge rest d 1 longest
        omega

lemma dayCurrent_le_dayLongest (t : Int) (l : List Int) :
    dayCurrent t l ≤ dayLongest l := by
  cases l with
  | nil => exact le_refl _
  | cons d rest =>
      simp only [dayCurrent, dayLongest]
      have h := dayLongestLoop_ge_chain rest d 1 1 (le_refl 1)
      by_cases hg : t - d = 0 ∨ t - d = 1
      · rw [if_pos hg]; omega
      · rw [if_neg hg]; omega

/-! Sorting facts -/

lemma sortDesc_perm (l : List Int) : (sortDesc l).Perm l :=
  List.perm_insertionSort _ l

lemma sortDesc_sorted (l : List Int) :
    List.Sorted (fun a b => b ≤ a) (sortDesc l) :=
  List.sorted_insertionSort _ l

lemma sortDesc_eq_self {l : List Int}
    (h : List.Sorted (fun a b => b ≤ a) l) : sortDesc l = l :=
  h.insertionSort_eq

lemma sortDesc_eq_nil_iff {l : List Int} : sortDesc l = [] ↔ l = [] := by
  constructor
  · intro h
    exact (h ▸ sortDesc_perm l).symm.eq_nil
  · intro h
    subst h
    rfl

lemma dayMs_le_dayMs_iff {a b : Int} : dayMs a ≤ dayMs b ↔ a ≤ b := by
  unfold dayMs
  constructor
  · intro h
    exact le_of_mul_le_mul_left h MS_pos
  · intro h
    exact mul_le_mul_of_nonneg_left h (by decide)

lemma map_dayFloor_sorted {l : List Int}
    (h : List.Sorted (fun a b => b ≤ a) l) :
    List.Sorted (fun a b => b ≤ a) (l.map dayFloor) :=
  List.Pairwise.map dayFloor (fun _ _ hab => dayFloor_mono hab) h

/-- Sorting then taking day numbers is insensitive to time-of-day
normalization of the input. -/
lemma map_dayFloor_sortDesc (l : List Int) :
    (sortDesc l).map dayFloor = (sortDesc (l.map setHours0)).map dayFloor := by
  apply List.eq_of_perm_of_sorted (r := fun a b => b ≤ a)
  · have h1 : ((sortDesc l).map dayFloor).Perm (l.map dayFloor) :=
      (sortDesc_perm l).map dayFloor
    have h2 : ((sortDesc (l.map setHours0)).map dayFloor).Perm
        ((l.map setHours0).map dayFloor) :=
      (sortDesc_perm _).map dayFloor
    have h3 : (l.map setHours0).map dayFloor = l.map dayFloor := by
      rw [List.map_map]
      exact List.map_congr_left fun a _ => dayFloor_setHours0 a
    rw [h3] at h2
    exact h1.trans h2.symm
  · exact map_dayFloor_sorted (sortDesc_sorted l)
  · exact map_dayFloor_sorted (sortDesc_sorted _)

/-! Claim theorems: easy cases first -/

/-- C3: empty input gives `(0, 0)` for every reference date. -/
theorem C3_empty_input (today : Int) :
    calculateStreaksFromSet [] today = (0, 0) := rfl

/-- C7: the longest-streak component does not depend on the reference date. -/
theorem C7_longest_independent_of_today (dates : List Int) (t1 t2 : Int) :
    (calculateStreaksFromSet dates t1).2 = (calculateStreaksFromSet dates t2).2 := by
  unfold calculateStreaksFromSet calculateStreaks
  cases sortDesc dates <;> rfl

/-- C10: a failed or errored store query returns `(0, 0)`, the same result
as an empty completion history, for every reference date. -/
theorem C10_error_path (today : Int) :
    calculateStreaksQuery none today = (0, 0) ∧
      calculateStreaksQuery none today = calculateStreaksQuery (some []) today :=
  ⟨rfl, rfl⟩

/-- C1 (code evaluation at the failing input): for dates
`{today-3, today-4, today-5}` with `today` = day 100, the code returns
`currentStreak = 2` (the pair walk is not skipped when the most recent
date is stale) together with `longestStreak = 3`. -/
theorem C1_code_eval :
    calculateStreaksFromSet [dayMs 97, dayMs 96, dayMs 95] (dayMs 100) = (2, 3) := by
  decide

/-! Facts about the toggle route's store operations -/

lemma selectSingle_some {store : List ProgressRecord} {u h : Nat} {d : Int}
    {r : ProgressRecord} (hs : selectSingle store u h d = some r) :
    r ∈ store ∧ matchKey u h d r = true := by
  unfold selectSingle at hs
  cases hf : store.filter (matchKey u h d) with
  | nil => rw [hf] at hs; cases hs
  | cons a tail =>
      cases tail with
      | nil =>
          rw [hf] at hs
          have ha : a = r := by simpa using hs
          subst ha
          have hmem : a ∈ store.filter (matchKey u h d) := by
            rw [hf]
            exact List.mem_singleton_self a
          exact ⟨List.mem_of_mem_filter hmem, List.of_mem_filter hmem⟩
      | cons b t2 => rw [hf] at hs; cases hs

lemma selectSingle_none_not_one {store : List ProgressRecord} {u h : Nat}
    {d : Int} (hs : selectSingle store u h d = none) :
    (store.filter (matchKey u h d)).length ≠ 1 := by
  intro hlen
  unfold selectSingle at hs
  cases hf : store.filter (matchKey u h d) with
  | nil => rw [hf] at hlen; cases hlen
  | cons a tail =>
      cases tail with
      | nil => rw [hf] at hs; cases hs
      | cons b t2 =>
          rw [hf] at hlen
          simp at hlen

/-- When every record of the habit belongs to its owner, the per-habit-day
filter and the toggle route's (user, habit, day) filter agree. -/
lemma filter_key_eq (store : List ProgressRecord) (u h : Nat) (d : Int)
    (hown : ∀ r ∈ store, r.habitId = h → r.userId = u) :
    store.filter (fun r => r.habitId == h && r.date == d) =
      store.filter (matchKey u h d) := by
  apply List.filter_congr
  intro r hr
  unfold matchKey
  rw [Bool.eq_iff_iff]
  simp only [Bool.and_eq_true, beq_iff_eq]
  by_cases h1 : r.habitId = h
  · by_cases h2 : r.date = d
    · have h3 : r.userId = u := hown r hr h1
      simp [h1, h2, h3]
    · simp [h2]
  · simp [h1]

/-- Flipping the completed flag of one record (selected by id) moves no
record to another (habit, day) key. -/
lemma countKey_map_flip (store : List ProgressRecord) (i : Nat)
    (notes : Option String) (h : Nat) (d : Int) :
    countKey (store.map fun x =>
      if x.id = i then
        { x with completed := !x.completed, notes := notes.getD x.notes }
      else x) h d = countKey store h d := by
  unfold countKey
  rw [List.filter_map, List.length_map]
  have hf : List.filter ((fun r => r.habitId == h && r.date == d) ∘
      (fun x => if x.id = i then
        { x with completed := !x.completed, notes := notes.getD x.notes }
      else x)) store =
      List.filter (fun r => r.habitId == h && r.date == d) store := by
    apply List.filter_congr
    intro x _
    by_cases hx : x.id = i <;> simp [Function.comp, hx]
  rw [hf]

lemma map_flip_not_mem (i : Nat) (notes : Option String)
    (l : List ProgressRecord) (h : i ∉ l.map ProgressRecord.id) :
    l.map (fun x =>
      if x.id = i then
        { x with completed := !x.completed, notes := notes.getD x.notes }
      else x) = l := by
  induction l with
  | nil => rfl
  | cons a rest ih =>
      rw [List.map_cons, List.mem_cons] at h
      push_neg at h
      rw [List.map_cons, if_neg (fun he => h.1 he.symm), ih h.2]

/-- C9: on a store with at most one record per habit and day (all belonging
to the habit's owner, with distinct row ids), the completion toggle:
keeps at most one record per habit per day; creates exactly one new record
with `completed = true` when none exists for that day; and negates the
existing record's flag in place when one exists. -/
theorem C9_toggle_correct (store : List ProgressRecord) (u h : Nat)
    (date : Int) (notes : Option String) (fid : Nat)
    (hown : ∀ r ∈ store, r.habitId = h → r.userId = u)
    (hids : (store.map ProgressRecord.id).Nodup)
    (huniq : ∀ d, countKey store h d ≤ 1) :
    (∀ d, countKey (toggleProgress store u h date notes fid) h d ≤ 1) ∧
    (selectSingle store u h (dayFloor date) = none →
      toggleProgress store u h date notes fid =
        store ++ [{ id := fid, userId := u, habitId := h,
                    date := dayFloor date, completed := true,
                    notes := notes.getD "" }]) ∧
    (∀ r, selectSingle store u h (dayFloor date) = some r →
      ∃ l1 l2, store = l1 ++ r :: l2 ∧
        toggleProgress store u h date notes fid =
          l1 ++ { r with completed := !r.completed,
                         notes := notes.getD r.notes } :: l2) := by
  refine ⟨?_, ?_, ?_⟩
  · intro d
    cases hsel : selectSingle store u h (dayFloor date) with
    | some r =>
        simp only [toggleProgress, hsel]
        rw [countKey_map_flip]
        exact huniq d
    | none =>
        simp only [toggleProgress, hsel]
        unfold countKey
        rw [List.filter_append, List.length_append]
        by_cases hd : dayFloor date = d
        · subst hd
          have heq := filter_key_eq store u h (dayFloor date) hown
          have hle := huniq (dayFloor date)
          unfold countKey at hle
          have hne := selectSingle_none_not_one hsel
          rw [heq] at hle ⊢
          have hnew : (List.filter
              (fun r : ProgressRecord => r.habitId == h && r.date == dayFloor date)
              [{ id := fid, userId := u, habitId := h, date := dayFloor date,
                 completed := true, notes := notes.getD "" }]).length = 1 := by
            simp
          rw [hnew]
          omega
        · have hnew : (List.filter
              (fun r : ProgressRecord => r.habitId == h && r.date == d)
              [{ id := fid, userId := u, habitId := h, date := dayFloor date,
                 completed := true, notes := notes.getD "" }]).length = 0 := by
            simp [hd]
          rw [hnew]
          have := huniq d
          unfold countKey at this
          omega
  · intro hnone
    simp only [toggleProgress, hnone]
  · intro r hsel
    obtain ⟨hr, -⟩ := selectSingle_some hsel
    obtain ⟨l1, l2, hsplit⟩ := List.append_of_mem hr
    refine ⟨l1, l2, hsplit, ?_⟩
    simp only [toggleProgress, hsel]
    subst hsplit
    rw [List.map_append, List.map_cons] at hids ⊢
    obtain ⟨h1, h2, hdisj⟩ := List.nodup_append.1 hids
    have hrid2 : r.id ∉ l2.map ProgressRecord.id := (List.nodup_cons.1 h2).1
    have hrid1 : r.id ∉ l1.map ProgressRecord.id :=
      fun hmem => hdisj hmem (List.mem_cons_self _ _)
    rw [map_flip_not_mem _ _ _ hrid1, map_flip_not_mem _ _ _ hrid2, if_pos rfl]

theorem C9_toggle_correct_witness :
    countKey (toggleProgress [⟨1, 7, 3, 5, true, ""⟩] 7 3 (dayMs 5) none 2)
      3 5 ≤ 1 :=
  (C9_toggle_correct [⟨1, 7, 3, 5, true, ""⟩] 7 3 (dayMs 5) none 2
    (by
      intro r hr hh
      rw [List.mem_singleton] at hr
      subst hr
      rfl)
    (by simp)
    (by
      intro d
      unfold countKey
      exact le_trans (List.length_filter_le _ _) (by simp))).1 5

/-- C2: for every set of completion dates (calendar days) and every
reference date, the returned pair satisfies
`longestStreak ≥ currentStreak ≥ 0`. -/
theorem C2_longest_ge_current (ds : List Int) (today : Int) :
    (calculateStreaksFromSet (ds.map dayMs) today).1 ≤
      (calculateStreaksFromSet (ds.map dayMs) today).2 ∧
    0 ≤ (calculateStreaksFromSet (ds.map dayMs) today).1 := by
  refine ⟨?_, Nat.zero_le _⟩
  have hmem : ∀ x ∈ sortDesc (ds.map dayMs), x = dayMs (dayFloor x) := by
    intro x hx
    have hx2 : x ∈ ds.map dayMs := (sortDesc_perm _).mem_iff.1 hx
    obtain ⟨k, -, rfl⟩ := List.mem_map.1 hx2
    rw [dayFloor_dayMs]
  unfold calculateStreaksFromSet
  cases hs : sortDesc (ds.map dayMs) with
  | nil => simp [calculateStreaks]
  | cons d rest =>
      simp only [calculateStreaks]
      rw [currentStreakCalc_eq_dayCurrent,
        longestStreakCalc_eq_dayLongest _ (hs ▸ hmem)]
      exact dayCurrent_le_dayLongest _ _

/-- C8: the computation is order-independent: any permutation of the input
dates yields the identical output pair. -/
theorem C8_order_independence (l1 l2 : List Int) (today : Int)
    (hp : l1.Perm l2) :
    calculateStreaksFromSet l1 today = calculateStreaksFromSet l2 today := by
  have hs : sortDesc l1 = sortDesc l2 :=
    List.eq_of_perm_of_sorted
      (((sortDesc_perm l1).trans hp).trans (sortDesc_perm l2).symm)
      (sortDesc_sorted l1) (sortDesc_sorted l2)
  unfold calculateStreaksFromSet
  rw [hs]

theorem C8_order_independence_witness :
    calculateStreaksFromSet [dayMs 3, dayMs 5] (dayMs 5) =
      calculateStreaksFromSet [dayMs 5, dayMs 3] (dayMs 5) :=
  C8_order_independence _ _ _ (by decide)

/-- C4: the set `{today, today-1, today-2}` gives `(3, 3)`, and
`{today, today-1, today-5, today-6, today-7}` gives `(2, 3)`,
for every day `d` taken as today. -/
theorem C4_examples (d : Int) :
    calculateStreaksFromSet [dayMs d, dayMs (d - 1), dayMs (d - 2)] (dayMs d)
        = (3, 3) ∧
    calculateStreaksFromSet
        [dayMs d, dayMs (d - 1), dayMs (d - 5), dayMs (d - 6), dayMs (d - 7)]
        (dayMs d) = (2, 3) := by
  constructor
  · unfold calculateStreaksFromSet
    rw [sortDesc_eq_self (by
      simp only [List.sorted_cons, List.mem_cons, List.mem_singleton,
        List.not_mem_nil, List.sorted_nil, dayMs_le_dayMs_iff]
      constructor
      · intro b hb
        rcases hb with rfl | rfl | h
        · exact dayMs_le_dayMs_iff.2 (by omega)
        · exact dayMs_le_dayMs_iff.2 (by omega)
        · cases h
      constructor
      · intro b hb
        rcases hb with rfl | h
        · exact dayMs_le_dayMs_iff.2 (by omega)
        · cases h
      simp)]
    simp only [calculateStreaks]
    rw [currentStreakCalc_eq_dayCurrent,
      longestStreakCalc_eq_dayLongest _ (by
        intro x hx
        simp only [List.mem_cons, List.not_mem_nil, or_false] at hx
        rcases hx with rfl | rfl | rfl <;> rw [dayFloor_dayMs])]
    simp only [List.map_cons, List.map_nil, dayFloor_dayMs]
    simp only [dayCurrent, dayChain, dayLongest, dayLongestLoop, Prod.mk.injEq]
    split_ifs <;> (try simp [Nat.max_def]) <;> omega
  · unfold calculateStreaksFromSet
    rw [sortDesc_eq_self (by
      simp only [List.sorted_cons, List.mem_cons, List.mem_singleton,
        List.not_mem_nil, List.sorted_nil]
      refine ⟨?_, ?_, ?_, ?_, ?_⟩
      · intro b hb
        rcases hb with rfl | rfl | rfl | rfl | h
        · exact dayMs_le_dayMs_iff.2 (by omega)
        · exact dayMs_le_dayMs_iff.2 (by omega)
        · exact dayMs_le_dayMs_iff.2 (by omega)
        · exact dayMs_le_dayMs_iff.2 (by omega)
        · cases h
      · intro b hb
        rcases hb with rfl | rfl | rfl | h
        · exact dayMs_le_dayMs_iff.2 (by omega)
        · exact dayMs_le_dayMs_iff.2 (by omega)
        · exact dayMs_le_dayMs_iff.2 (by omega)
        · cases h
      · intro b hb
        rcases hb with rfl | rfl | h
        · exact dayMs_le_dayMs_iff.2 (by omega)
        · exact dayMs_le_dayMs_iff.2 (by omega)
        · cases h
      · intro b hb
        rcases hb with rfl | h
        · exact dayMs_le_dayMs_iff.2 (by omega)
        · cases h
      · simp)]
    simp only [calculateStreaks]
    rw [currentStreakCalc_eq_dayCurrent,
      longestStreakCalc_eq_dayLongest _ (by
        intro x hx
        simp only [List.mem_cons, List.not_mem_nil, or_false] at hx
        rcases hx with rfl | rfl | rfl | rfl | rfl <;> rw [dayFloor_dayMs])]
    simp only [List.map_cons, List.map_nil, dayFloor_dayMs]
    simp only [dayCurrent, dayChain, dayLongest, dayLongestLoop, Prod.mk.injEq]
    split_ifs <;> (try simp [Nat.max_def]) <;> omega

/-- C5: a single-date input always has `longestStreak = 1`; its
`currentStreak` is 1 when the date is today or yesterday and 0 when it is
two or more days before today. -/
theorem C5_single_date (d t : Int) :
    (calculateStreaksFromSet [dayMs d] (dayMs t)).2 = 1 ∧
    (t - d = 0 ∨ t - d = 1 →
      (calculateStreaksFromSet [dayMs d] (dayMs t)).1 = 1) ∧
    (2 ≤ t - d →
      (calculateStreaksFromSet [dayMs d] (dayMs t)).1 = 0) := by
  unfold calculateStreaksFromSet
  rw [sortDesc_eq_self (List.sorted_singleton _)]
  simp only [calculateStreaks, currentStreakCalc, currentChain,
    longestStreakCalc, longestLoop, setHours0_dayMs, daysDiff_dayMs]
  refine ⟨by trivial, ?_, ?_⟩
  · intro hg
    rw [if_pos hg]
  · intro hg
    rw [if_neg (by omega)]

theorem C5_single_date_witness :
    (calculateStreaksFromSet [dayMs 5] (dayMs 6)).2 = 1 ∧
    (calculateStreaksFromSet [dayMs 5] (dayMs 6)).1 = 1 ∧
    (calculateStreaksFromSet [dayMs 5] (dayMs 8)).1 = 0 :=
  ⟨(C5_single_date 5 6).1,
    (C5_single_date 5 6).2.1 (Or.inr (by decide)),
    (C5_single_date 5 8).2.2 (by decide)⟩

/-- C6 fails as stated: on the two-date history "day 9 at 23:00, day 10 at
01:00" with today = day 10, the code returns `(2, 1)` — the longest-streak
scan compares the raw timestamps (floor difference 0 days) — while on the
day-normalized input it returns `(2, 2)`. -/
theorem C6_counterexample :
    calculateStreaksFromSet [dayMs 10 + 3600000, dayMs 9 + 82800000]
        (dayMs 10) ≠
      calculateStreaksFromSet
        (List.map setHours0 [dayMs 10 + 3600000, dayMs 9 + 82800000])
        (dayMs 10) := by
  decide

/-- C6 amended: only the current-streak scan works at day granularity: the
`currentStreak` component of the output is unchanged when every input date
has its time-of-day component normalized to midnight. (The longest-streak
scan compares raw timestamps, so the `longestStreak` component may differ;
it agrees when the input already carries no time-of-day components.) -/
theorem C6_current_day_granularity (l : List Int) (t : Int) :
    (calculateStreaksFromSet l t).1 =
      (calculateStreaksFromSet (l.map setHours0) t).1 := by
  unfold calculateStreaksFromSet
  have hkey := map_dayFloor_sortDesc l
  cases h1 : sortDesc l with
  | nil =>
      have hl : l = [] := sortDesc_eq_nil_iff.1 h1
      subst hl
      rfl
  | cons a as =>
      cases h2 : sortDesc (l.map setHours0) with
      | nil =>
          have hl : l.map setHours0 = [] := sortDesc_eq_nil_iff.1 h2
          have hnil : l = [] := List.map_eq_nil_iff.1 hl
          rw [hnil] at h1
          simp [sortDesc, List.insertionSort] at h1
      | cons b bs =>
          simp only [calculateStreaks]
          rw [currentStreakCalc_eq_dayCurrent, currentStreakCalc_eq_dayCurrent]
          rw [h1, h2] at hkey
          rw [hkey]

end HabitBackend
